import Mathlib

/-!
Verification of the lock discipline and measurement contract of
stats_alloc_helper (src/lib.rs).

The lock state is a single machine word (an AtomicUsize): 0 means unlocked
(Free), 1 means an allocator operation is in flight (TransientBusy), and any
other value is the pthread id of the thread that holds the measurement lock
(OwnedBy).  Every state change in the source is a sequentially consistent
compare-and-swap; we model each loop iteration of before_op, after_op, lock
and unlock as a step function on the state word, where the result none means
the compare-and-swap failed in a way that makes the caller sleep and retry.
-/

namespace StatsAllocHelper

/-- Sentinel value 0: the allocator is not locked (Free). -/
def STATE_UNLOCKED : Nat := 0

/-- Sentinel value 1: some caller is mid-way through an allocator
operation (TransientBusy). -/
def STATE_IN_USE : Nat := 1

/-- One iteration of the loop in LockedAllocator::before_op, acting on the
state word s for a caller whose pthread id is t.  The source first attempts
compare_exchange(STATE_UNLOCKED, STATE_IN_USE): on success the loop breaks and
before_op returns false; on failure, if the existing value equals the caller's
thread id, before_op returns true with the word unchanged; otherwise the
caller sleeps and retries, modelled as none. -/
def before_op_step (s t : Nat) : Option (Bool × Nat) :=
  if s = STATE_UNLOCKED then some (false, STATE_IN_USE)
  else if s = t then some (true, s)
  else none

/-- before_op retried up to n times against an unchanged state word: between
failed iterations the caller only sleeps, and no other thread can change a
word that holds neither 0 nor its own id, so in the single-caller scenarios we
study the word seen at each retry is the same. -/
def before_op_spin (s t : Nat) : Nat → Option (Bool × Nat)
  | 0 => none
  | n + 1 =>
    match before_op_step s t with
    | some r => some r
    | none => before_op_spin s t n

/-- One iteration of the loop in LockedAllocator::after_op.  The source first
attempts compare_exchange(STATE_IN_USE, STATE_UNLOCKED): on success the word
moves 1 -> 0; on failure, if the existing value equals the caller's thread id
the loop breaks without touching the word; otherwise the caller sleeps and
retries (none). -/
def after_op_step (s t : Nat) : Option Nat :=
  if s = STATE_IN_USE then some STATE_UNLOCKED
  else if s = t then some s
  else none

/-- One iteration of the loop in LockedAllocator::lock:
compare_exchange(STATE_UNLOCKED, current_thread_id).  On success the word
becomes the caller's id; any failure makes the caller sleep and retry (none).
There is no reentrancy check: the existing value is never compared with the
caller's id. -/
def lock_step (s t : Nat) : Option Nat :=
  if s = STATE_UNLOCKED then some t else none

/-- LockedAllocator::lock retried up to n times against an unchanged state
word.  A failed iteration does not change the word, and no other thread's
compare-and-swap can modify a word holding a nonzero id other than its own,
so when the word holds the caller's own id every retry sees the same word. -/
def lock_spin (s t : Nat) : Nat → Option Nat
  | 0 => none
  | n + 1 =>
    match lock_step s t with
    | some r => some r
    | none => lock_spin s t n

/-- LockedAllocator::unlock: compare_exchange(expected, STATE_UNLOCKED) where
expected is the caller's thread id, followed by unwrap of the result.  On
success the word moves to 0 and the assert_eq passes; on failure the unwrap
panics and the word is left unchanged — modelled as Except.error carrying the
unchanged word. -/
def unlock_run (s t : Nat) : Except Nat Nat :=
  if s = t then Except.ok STATE_UNLOCKED else Except.error s

/-- LockedAllocator::serialized specialised to a non-blocking run: before_op
resolves in one step (state Free or owned by the caller), the wrapped
operation op receives the is_locked flag and produces its result, and then
after_op resolves in one step.  none models a run that would spin.  The
result of op is returned exactly as produced. -/
def serialized (s t : Nat) (op : Bool → α) : Option (α × Nat) :=
  match before_op_step s t with
  | none => none
  | some (locked, s1) =>
    match after_op_step s1 t with
    | none => none
    | some s2 => some (op locked, s2)

/-- The calls LockedAllocator::serialized makes, in order. -/
inductive AllocEvent where
  | beforeOpCall
  | innerOpCall
  | afterOpCall
deriving DecidableEq, Repr

/-- LockedAllocator::serialized with the sequence of calls it performs made
explicit.  The body of serialized is: let locked = self.before_op(); let
result = op(locked); self.after_op(); — the call to after_op is
unconditional, on the reentrant-owner path as well as the contended path. -/
def serialized_trace (s t : Nat) : Option (List AllocEvent × Bool × Nat) :=
  match before_op_step s t with
  | none => none
  | some (locked, s1) =>
    match after_op_step s1 t with
    | none => none
    | some s2 =>
      some ([AllocEvent.beforeOpCall, AllocEvent.innerOpCall,
             AllocEvent.afterOpCall], locked, s2)

/-- Statistics Snapshot of the external Statistics Collector collaborator
(the stats_alloc crate, out of scope per the spec).  Modelled from the spec:
an immutable record of six non-negative counters — allocation count,
deallocation count, reallocation count, bytes allocated, bytes deallocated,
bytes reallocated. -/
structure Stats where
  allocations : Nat
  deallocations : Nat
  reallocations : Nat
  bytes_allocated : Nat
  bytes_deallocated : Nat
  bytes_reallocated : Nat
deriving DecidableEq, Repr

/-- The all-zero snapshot. -/
def Stats.zero : Stats := ⟨0, 0, 0, 0, 0, 0⟩

/-- Counter-wise subtraction of snapshots (later minus earlier).  The
counters of the collector are monotone, so on the snapshots this is applied
to the Nat subtraction is exact. -/
def Stats.sub (a b : Stats) : Stats :=
  ⟨a.allocations - b.allocations, a.deallocations - b.deallocations,
   a.reallocations - b.reallocations, a.bytes_allocated - b.bytes_allocated,
   a.bytes_deallocated - b.bytes_deallocated,
   a.bytes_reallocated - b.bytes_reallocated⟩

/-- Counter-wise addition of deltas. -/
def Stats.add (a b : Stats) : Stats :=
  ⟨a.allocations + b.allocations, a.deallocations + b.deallocations,
   a.reallocations + b.reallocations, a.bytes_allocated + b.bytes_allocated,
   a.bytes_deallocated + b.bytes_deallocated,
   a.bytes_reallocated + b.bytes_reallocated⟩

/-- One allocator primitive issued by measured code: an allocation of n
bytes, a deallocation of n bytes, or a reallocation moving n bytes. -/
inductive AllocOp where
  | alloc (n : Nat)
  | dealloc (n : Nat)
  | realloc (n : Nat)
deriving DecidableEq, Repr

/-- Effect of one allocator primitive on the collector's counters.  Modelled
from the spec: the collector counts each primitive once and accumulates its
byte total in the matching bytes counter. -/
def applyOp (s : Stats) : AllocOp → Stats
  | AllocOp.alloc n =>
    { s with allocations := s.allocations + 1,
             bytes_allocated := s.bytes_allocated + n }
  | AllocOp.dealloc n =>
    { s with deallocations := s.deallocations + 1,
             bytes_deallocated := s.bytes_deallocated + n }
  | AllocOp.realloc n =>
    { s with reallocations := s.reallocations + 1,
             bytes_reallocated := s.bytes_reallocated + n }

/-- Effect of a sequence of allocator primitives on the counters. -/
def applyOps (l : List AllocOp) (s : Stats) : Stats := l.foldl applyOp s

/-- The measured closure's allocator primitives run one after the other, each
through LockedAllocator::serialized, threading the state word and the
counters.  none models a run in which some primitive would spin forever. -/
def run_ops (t : Nat) : List AllocOp → Nat → Stats → Option (Nat × Stats)
  | [], s, st => some (s, st)
  | o :: rest, s, st =>
    match serialized s t (fun _ => applyOp st o) with
    | none => none
    | some (st1, s1) => run_ops t rest s1 st1

/-- memory_measured for a closure that runs the listed allocator primitives
and then either returns normally or panics.  The source is: alloc.lock();
let before = alloc.stats(); f(); let after = alloc.stats(); alloc.unlock();
after - before.  There is no unwind guard around f, so a panic in f leaves
lock and skips unlock: the error case carries the state word and counters at
the moment the panic unwinds out of memory_measured.  The outer none models
a call that spins forever (in lock or inside an operation); a failed unlock
is the panic of unlock_run's unwrap, carried as an error as well. -/
def memory_measured_run (t s : Nat) (st : Stats) (ops : List AllocOp)
    (panics : Bool) : Option (Except (Nat × Stats) (Stats × Nat × Stats)) :=
  match lock_step s t with
  | none => none
  | some s1 =>
    match run_ops t ops s1 st with
    | none => none
    | some (s2, after) =>
      if panics then some (Except.error (s2, after))
      else
        match unlock_run s2 t with
        | Except.error w => some (Except.error (w, after))
        | Except.ok s3 => some (Except.ok (Stats.sub after st, s3, after))

/-- memory_measured with a closure that returns normally: the delta it
returns, together with the final state word and final counters. -/
def memory_measured (t s : Nat) (st : Stats) (ops : List AllocOp) :
    Option (Stats × Nat × Stats) :=
  match memory_measured_run t s st ops false with
  | some (Except.ok r) => some r
  | _ => none

/-- Claim C4: before_op returns true immediately and leaves the state word
unchanged when the word equals the caller's thread id (a genuine OwnedBy
value, hence nonzero); moves Free (0) to TransientBusy (1) returning false;
and in any other state sleeps and retries without bound — no finite number of
retries against the unchanged word ever resolves. -/
theorem before_op_semantics (s t : Nat) :
    (t ≠ 0 → s = t → before_op_step s t = some (true, s)) ∧
    (s = 0 → before_op_step s t = some (false, 1)) ∧
    (s ≠ 0 → s ≠ t → ∀ n : Nat, before_op_spin s t n = none) := by
  refine ⟨?_, ?_, ?_⟩
  · intro ht hs
    subst hs
    simp [before_op_step, STATE_UNLOCKED, ht]
  · intro hs
    subst hs
    simp [before_op_step, STATE_UNLOCKED, STATE_IN_USE]
  · intro hs hst n
    induction n with
    | zero => rfl
    | succ n ih =>
      simp only [before_op_spin, before_op_step, STATE_UNLOCKED, if_neg hs,
        if_neg hst]
      exact ih

/-- Witness for before_op_semantics at concrete inputs: thread 5 owning the
word passes immediately, thread 7 moves a free word to TransientBusy, and
thread 7 spinning against a word owned by thread 3 makes no progress in 10
retries. -/
theorem before_op_semantics_witness :
    (5 ≠ 0 ∧ before_op_step 5 5 = some (true, 5)) ∧
    before_op_step 0 7 = some (false, 1) ∧
    (3 ≠ 0 ∧ 3 ≠ 7 ∧ before_op_spin 3 7 10 = none) :=
  ⟨⟨by decide, (before_op_semantics 5 5).1 (by decide) rfl⟩,
   (before_op_semantics 0 7).2.1 rfl,
   by decide, by decide,
   (before_op_semantics 3 7).2.2 (by decide) (by decide) 10⟩

/-- Claim C5: unlock succeeds exactly when the state word equals the caller's
thread id, moving it to Free (0); from any other word value it panics (the
unwrap of the failed compare-and-swap) and leaves the word unchanged. -/
theorem unlock_fail_fast (s t : Nat) :
    (s = t → unlock_run s t = Except.ok 0) ∧
    (s ≠ t → unlock_run s t = Except.error s) := by
  constructor
  · intro hs
    simp [unlock_run, hs, STATE_UNLOCKED]
  · intro hs
    simp [unlock_run, hs]

/-- Witness for unlock_fail_fast: thread 2 unlocking its own word succeeds
and frees it; unlocking a free word (0), a TransientBusy word (1), or a word
owned by thread 3 panics with the word unchanged. -/
theorem unlock_fail_fast_witness :
    unlock_run 2 2 = Except.ok 0 ∧
    ((0 : Nat) ≠ 2 ∧ unlock_run 0 2 = Except.error 0) ∧
    ((1 : Nat) ≠ 2 ∧ unlock_run 1 2 = Except.error 1) ∧
    ((3 : Nat) ≠ 2 ∧ unlock_run 3 2 = Except.error 3) :=
  ⟨(unlock_fail_fast 2 2).1 rfl,
   ⟨by decide, (unlock_fail_fast 0 2).2 (by decide)⟩,
   ⟨by decide, (unlock_fail_fast 1 2).2 (by decide)⟩,
   ⟨by decide, (unlock_fail_fast 3 2).2 (by decide)⟩⟩

lemma add_zero_stats (s : Stats) : Stats.add s Stats.zero = s := by
  simp [Stats.add, Stats.zero]

lemma add_assoc_stats (a b c : Stats) :
    Stats.add (Stats.add a b) c = Stats.add a (Stats.add b c) := by
  simp [Stats.add, Nat.add_assoc]

lemma sub_add_cancel_stats (s c : Stats) :
    Stats.sub (Stats.add s c) s = c := by
  simp [Stats.sub, Stats.add]

lemma applyOp_add (s c : Stats) (o : AllocOp) :
    applyOp (Stats.add s c) o = Stats.add s (applyOp c o) := by
  cases o <;> simp [applyOp, Stats.add, Nat.add_assoc]

lemma applyOps_delta : ∀ (l : List AllocOp) (s : Stats),
    applyOps l s = Stats.add s (applyOps l Stats.zero) := by
  intro l
  induction l with
  | nil => intro s; simp [applyOps, add_zero_stats]
  | cons o rest ih =>
    intro s
    have hs : applyOp s o = Stats.add s (applyOp Stats.zero o) := by
      have := applyOp_add s Stats.zero o
      rwa [add_zero_stats] at this
    calc applyOps (o :: rest) s = applyOps rest (applyOp s o) := by
          simp [applyOps]
      _ = Stats.add (applyOp s o) (applyOps rest Stats.zero) := ih _
      _ = Stats.add (Stats.add s (applyOp Stats.zero o))
            (applyOps rest Stats.zero) := by rw [hs]
      _ = Stats.add s (Stats.add (applyOp Stats.zero o)
            (applyOps rest Stats.zero)) := add_assoc_stats _ _ _
      _ = Stats.add s (applyOps rest (applyOp Stats.zero o)) := by
          rw [← ih (applyOp Stats.zero o)]
      _ = Stats.add s (applyOps (o :: rest) Stats.zero) := by
          simp [applyOps]

lemma applyOps_append (l1 l2 : List AllocOp) (s : Stats) :
    applyOps (l1 ++ l2) s = applyOps l2 (applyOps l1 s) := by
  simp [applyOps, List.foldl_append]

lemma serialized_owner {α : Type} (t : Nat) (op : Bool → α) (ht : 2 ≤ t) :
    serialized t t op = some (op true, t) := by
  have h0 : t ≠ 0 := by omega
  have h1 : t ≠ 1 := by omega
  simp [serialized, before_op_step, after_op_step, STATE_UNLOCKED,
    STATE_IN_USE, h0, h1]

lemma serialized_free {α : Type} (t : Nat) (op : Bool → α) :
    serialized 0 t op = some (op false, 0) := by
  simp [serialized, before_op_step, after_op_step, STATE_UNLOCKED,
    STATE_IN_USE]

lemma run_ops_owner (t : Nat) (ht : 2 ≤ t) :
    ∀ (ops : List AllocOp) (st : Stats),
    run_ops t ops t st = some (t, applyOps ops st) := by
  intro ops
  induction ops with
  | nil => intro st; simp [run_ops, applyOps]
  | cons o rest ih =>
    intro st
    simp [run_ops, serialized_owner t _ ht, ih, applyOps]

lemma memory_measured_closed_form (t : Nat) (st : Stats)
    (ops : List AllocOp) (ht : 2 ≤ t) :
    memory_measured t 0 st ops =
      some (Stats.sub (applyOps ops st) st, 0, applyOps ops st) := by
  have h0 : t ≠ 0 := by omega
  simp [memory_measured, memory_measured_run, lock_step, unlock_run,
    STATE_UNLOCKED, run_ops_owner t ht]

lemma lock_spin_self (t : Nat) (ht : t ≠ 0) :
    ∀ n : Nat, lock_spin t t n = none := by
  intro n
  induction n with
  | zero => rfl
  | succ n ih =>
    simp only [lock_spin, lock_step, STATE_UNLOCKED, if_neg ht]
    exact ih

/-- Claim C6: memory_measured from a free lock word acquires ownership for
the calling thread, snapshots the counters, runs every primitive of the
closure through the reentrant owner path, snapshots again, releases the word
back to Free, and returns exactly the counter-wise difference of the two
snapshots; a no-op closure yields the all-zero delta. -/
theorem memory_measured_contract (t : Nat) (st : Stats)
    (ops : List AllocOp) (ht : 2 ≤ t) :
    memory_measured t 0 st ops =
      some (Stats.sub (applyOps ops st) st, 0, applyOps ops st) ∧
    memory_measured t 0 st [] = some (Stats.zero, 0, st) := by
  refine ⟨memory_measured_closed_form t st ops ht, ?_⟩
  rw [memory_measured_closed_form t st [] ht]
  simp [applyOps, Stats.sub, Stats.zero]

/-- Witness for memory_measured_contract: thread 2 measuring one allocation
of 8 bytes from zero counters sees exactly that allocation in the delta, and
a no-op closure yields the all-zero delta; the word returns to Free. -/
theorem memory_measured_contract_witness :
    (2 ≤ 2) ∧
    (memory_measured 2 0 Stats.zero [AllocOp.alloc 8] =
      some (⟨1, 0, 0, 8, 0, 0⟩, 0, ⟨1, 0, 0, 8, 0, 0⟩) ∧
     memory_measured 2 0 Stats.zero [] = some (Stats.zero, 0, Stats.zero)) :=
  ⟨by decide, memory_measured_contract 2 Stats.zero [AllocOp.alloc 8]
    (by decide)⟩

/-- Claim C1 (divergence witness): a closure that panics unwinds through
memory_measured without ever reaching unlock, so control leaves the function
with the state word still holding the calling thread's id — OwnedBy(caller),
not Free: every other thread's allocator call will spin on it forever. -/
theorem panic_leaves_lock_held (t : Nat) (st : Stats)
    (ops : List AllocOp) (ht : 2 ≤ t) :
    memory_measured_run t 0 st ops true =
      some (Except.error (t, applyOps ops st)) ∧ t ≠ STATE_UNLOCKED := by
  have h0 : t ≠ 0 := by omega
  refine ⟨?_, by simp [STATE_UNLOCKED, h0]⟩
  simp [memory_measured_run, lock_step, STATE_UNLOCKED, run_ops_owner t ht]

/-- Witness for panic_leaves_lock_held: thread 2 with zero counters and a
panicking no-op closure exits with the word still equal to 2. -/
theorem panic_leaves_lock_held_witness :
    (2 ≤ 2) ∧
    (memory_measured_run 2 0 Stats.zero [] true =
      some (Except.error (2, Stats.zero)) ∧ (2 : Nat) ≠ STATE_UNLOCKED) :=
  ⟨by decide, panic_leaves_lock_held 2 Stats.zero [] (by decide)⟩

/-- Claim C2 (counterexample): a nested memory_measured on thread 2, called
while the outer call holds the word (state OwnedBy(2)), never acquires the
lock: lock only compare-and-swaps from Free (0), never checks the existing
value against the caller's id, and no number of retries resolves. -/
theorem nested_measure_lock_never_succeeds_cx :
    ¬ ∃ n : Nat, (lock_spin 2 2 n).isSome = true := by
  rintro ⟨n, h⟩
  rw [lock_spin_self 2 (by decide) n] at h
  simp at h

/-- Claim C2 (amended): a nested invocation of memory_measured on the same
thread deadlocks.  The outer lock moves the free word to the caller's id,
and from that word the inner lock's compare-and-swap from Free can never
succeed — lock has no reentrancy check — so the inner call spins forever. -/
theorem nested_measure_deadlocks (t n : Nat) (ht : t ≠ 0) :
    lock_step 0 t = some t ∧ lock_spin t t n = none :=
  ⟨by simp [lock_step, STATE_UNLOCKED], lock_spin_self t ht n⟩

/-- Witness for nested_measure_deadlocks: thread 2, ten retries. -/
theorem nested_measure_deadlocks_witness :
    (2 : Nat) ≠ 0 ∧ (lock_step 0 2 = some 2 ∧ lock_spin 2 2 10 = none) :=
  ⟨by decide, nested_measure_deadlocks 2 10 (by decide)⟩

/-- Claim C7 (counterexample): on the reentrant-owner path (thread 2 runs an
allocator primitive while the word is OwnedBy(2), so is_locked is true),
serialized still calls after_op — the call sequence it performs is before_op,
the inner operation, after_op, on every path. -/
theorem serialized_calls_after_op_on_owner_path_cx :
    serialized_trace 2 2 =
      some ([AllocEvent.beforeOpCall, AllocEvent.innerOpCall,
             AllocEvent.afterOpCall], true, 2) ∧
    AllocEvent.afterOpCall ∈
      [AllocEvent.beforeOpCall, AllocEvent.innerOpCall,
       AllocEvent.afterOpCall] := by
  constructor
  · rfl
  · simp

/-- Claim C7 (amended): after_op moves TransientBusy (1) back to Free (0)
and is a no-op when the word equals the caller's id; serialized calls
after_op unconditionally on every path, but on the reentrant-owner path that
call is a no-op, so every primitive through serialized leaves the word
OwnedBy(caller) unchanged on the owner path and restores it to Free on the
contended path. -/
theorem after_op_frame (t : Nat) (op : Bool → Nat) (ht : 2 ≤ t) :
    after_op_step 1 t = some 0 ∧
    after_op_step t t = some t ∧
    serialized t t op = some (op true, t) ∧
    serialized 0 t op = some (op false, 0) ∧
    serialized_trace t t =
      some ([AllocEvent.beforeOpCall, AllocEvent.innerOpCall,
             AllocEvent.afterOpCall], true, t) := by
  have h0 : t ≠ 0 := by omega
  have h1 : t ≠ 1 := by omega
  refine ⟨?_, ?_, serialized_owner t op ht, serialized_free t op, ?_⟩
  · simp [after_op_step, STATE_IN_USE, STATE_UNLOCKED]
  · simp [after_op_step, STATE_IN_USE, h1]
  · simp [serialized_trace, before_op_step, after_op_step, STATE_UNLOCKED,
      STATE_IN_USE, h0, h1]

/-- Witness for after_op_frame at thread 3 with the identity-style result. -/
theorem after_op_frame_witness :
    (2 ≤ 3) ∧
    (after_op_step 1 3 = some 0 ∧
     after_op_step 3 3 = some 3 ∧
     serialized 3 3 (fun b => if b then 7 else 9) = some (7, 3) ∧
     serialized 0 3 (fun b => if b then 7 else 9) = some (9, 0) ∧
     serialized_trace 3 3 =
       some ([AllocEvent.beforeOpCall, AllocEvent.innerOpCall,
              AllocEvent.afterOpCall], true, 3)) :=
  ⟨by decide, after_op_frame 3 (fun b => if b then 7 else 9) (by decide)⟩

/-- Claim C9: the value produced by the inner allocator is returned by
serialized exactly as produced — whatever the wrapped operation returns,
including a null pointer on out-of-memory — and after_op has run by the time
serialized returns: the word is back to Free on the contended path and still
OwnedBy(caller) on the owner path, never left TransientBusy. -/
theorem inner_result_propagates {α : Type} (t : Nat) (r : Bool → α)
    (ht : 2 ≤ t) :
    serialized 0 t r = some (r false, 0) ∧
    serialized t t r = some (r true, t) :=
  ⟨serialized_free t r, serialized_owner t r ht⟩

/-- Witness for inner_result_propagates: an inner allocator that reports
out-of-memory with a null pointer (0) has that null propagated unchanged by
thread 2, with the word freed. -/
theorem inner_result_propagates_witness :
    (2 ≤ 2) ∧
    (serialized 0 2 (fun _ => (0 : Nat)) = some (0, 0) ∧
     serialized 2 2 (fun _ => (0 : Nat)) = some (0, 2)) :=
  ⟨by decide, inner_result_propagates 2 (fun _ => (0 : Nat)) (by decide)⟩

/-- Claim C10: back-to-back measured scopes add up — the counter-wise sum of
the deltas of two consecutive memory_measured scopes equals the delta of the
single scope running the concatenated sequence of primitives. -/
theorem delta_additivity (t : Nat) (st : Stats) (l1 l2 : List AllocOp)
    (ht : 2 ≤ t) :
    ∃ d1 s1 d2 s2 d,
      memory_measured t 0 st l1 = some (d1, 0, s1) ∧
      memory_measured t 0 s1 l2 = some (d2, 0, s2) ∧
      memory_measured t 0 st (l1 ++ l2) = some (d, 0, s2) ∧
      Stats.add d1 d2 = d := by
  refine ⟨applyOps l1 Stats.zero, applyOps l1 st,
          applyOps l2 Stats.zero, applyOps l2 (applyOps l1 st),
          Stats.add (applyOps l1 Stats.zero) (applyOps l2 Stats.zero),
          ?_, ?_, ?_, rfl⟩
  · rw [memory_measured_closed_form t st l1 ht, applyOps_delta l1 st,
      sub_add_cancel_stats]
  · rw [memory_measured_closed_form t (applyOps l1 st) l2 ht,
      applyOps_delta l2 (applyOps l1 st), sub_add_cancel_stats]
  · rw [memory_measured_closed_form t st (l1 ++ l2) ht, applyOps_append]
    have h2 : applyOps (l1 ++ l2) st =
        Stats.add st (Stats.add (applyOps l1 Stats.zero)
          (applyOps l2 Stats.zero)) := by
      rw [applyOps_append, applyOps_delta l2 (applyOps l1 st),
        applyOps_delta l1 st, add_assoc_stats]
    rw [← applyOps_append, h2, sub_add_cancel_stats]

/-- Witness for delta_additivity: thread 2, scopes of one allocation and one
deallocation starting from zero counters. -/
theorem delta_additivity_witness :
    (2 ≤ 2) ∧
    (∃ d1 s1 d2 s2 d,
      memory_measured 2 0 Stats.zero [AllocOp.alloc 8] = some (d1, 0, s1) ∧
      memory_measured 2 0 s1 [AllocOp.dealloc 8] = some (d2, 0, s2) ∧
      memory_measured 2 0 Stats.zero
        ([AllocOp.alloc 8] ++ [AllocOp.dealloc 8]) = some (d, 0, s2) ∧
      Stats.add d1 d2 = d) :=
  ⟨by decide, delta_additivity 2 Stats.zero [AllocOp.alloc 8]
    [AllocOp.dealloc 8] (by decide)⟩

/-- One entry of a thread's stack of open sections: a transient marker it
set by moving the word 0 -> 1 in before_op, a reentrant pass granted by
before_op because the word equalled its id, or the measurement lock taken by
lock in memory_measured. -/
inductive Entry where
  | transient
  | reentrant
  | lockHeld
deriving DecidableEq, Repr

/-- Global state of the concurrent system: the shared state word of the
LockedAllocator, and for every thread id the stack of sections that thread
has entered and not yet exited.  Threads are indexed by their pthread id,
the value current_thread_id returns. -/
structure Sys where
  word : Nat
  stack : Nat → List Entry

/-- The process starts with the word Free and no thread inside anything. -/
def Sys.start : Sys := ⟨0, fun _ => []⟩

/-- Pointwise update of the stack family at one thread id. -/
def upd (f : Nat → List Entry) (t : Nat) (l : List Entry) :
    Nat → List Entry :=
  fun u => if u = t then l else f u

/-- One successful compare-and-swap (or owner-id break) of the source,
performed by the thread with id t.  Failed compare-and-swap attempts leave
the state unchanged (the caller sleeps and retries), so they need no
transition.  The guards are exactly the source's conditions:
before_op succeeds from a free word by setting it to 1, or passes
immediately when the existing value equals the caller's id (which the source
does not distinguish from genuine ownership); after_op runs when the
thread's innermost open section is an allocator operation, moving 1 back to
0 or breaking without a change when the existing value equals the caller's
id; lock compare-and-swaps the free word to the caller's id; unlock
compare-and-swaps the caller's id back to 0 and panics otherwise (no
transition). -/
inductive Step : Nat → Sys → Sys → Prop where
  | before_free (σ : Sys) (t : Nat) (hw : σ.word = 0) :
      Step t σ ⟨1, upd σ.stack t (Entry.transient :: σ.stack t)⟩
  | before_owner (σ : Sys) (t : Nat) (hw : σ.word = t) (h0 : t ≠ 0) :
      Step t σ ⟨σ.word, upd σ.stack t (Entry.reentrant :: σ.stack t)⟩
  | after_busy (σ : Sys) (t : Nat) (hw : σ.word = 1)
      (hh : (σ.stack t).head? = some Entry.transient ∨
            (σ.stack t).head? = some Entry.reentrant) :
      Step t σ ⟨0, upd σ.stack t (σ.stack t).tail⟩
  | after_owner (σ : Sys) (t : Nat) (hw : σ.word = t) (h1 : σ.word ≠ 1)
      (hh : (σ.stack t).head? = some Entry.transient ∨
            (σ.stack t).head? = some Entry.reentrant) :
      Step t σ ⟨σ.word, upd σ.stack t (σ.stack t).tail⟩
  | lock_acq (σ : Sys) (t : Nat) (hw : σ.word = 0) :
      Step t σ ⟨t, upd σ.stack t (Entry.lockHeld :: σ.stack t)⟩
  | unlock_ok (σ : Sys) (t : Nat) (hw : σ.word = t)
      (hh : (σ.stack t).head? = some Entry.lockHeld) :
      Step t σ ⟨0, upd σ.stack t (σ.stack t).tail⟩

/-- States reachable by steps of arbitrary thread ids, sentinel collisions
included. -/
inductive Reach : Sys → Prop where
  | start : Reach Sys.start
  | step (σ σ' : Sys) (t : Nat) (h : Reach σ) (hs : Step t σ σ') : Reach σ'

/-- States reachable when every live thread's id avoids the sentinel values
0 (Free) and 1 (TransientBusy). -/
inductive ReachS : Sys → Prop where
  | start : ReachS Sys.start
  | step (σ σ' : Sys) (t : Nat) (ht : 2 ≤ t) (h : ReachS σ)
      (hs : Step t σ σ') : ReachS σ'

/-- An entry that puts the thread inside the critical section of a raw
allocator operation. -/
def Entry.isAllocEntry : Entry → Bool
  | Entry.lockHeld => false
  | _ => true

/-- Marks the measurement lock. -/
def Entry.isLockEntry : Entry → Bool
  | Entry.lockHeld => true
  | _ => false

/-- The thread is inside the TransientBusy/OwnedBy critical section
performing a raw allocation. -/
def inAlloc (σ : Sys) (t : Nat) : Bool :=
  (σ.stack t).any Entry.isAllocEntry

/-- The thread holds exclusive ownership of the allocator. -/
def holds_lock (σ : Sys) (t : Nat) : Bool :=
  (σ.stack t).any Entry.isLockEntry

/-- Inductive invariant: the word is Free and every stack is empty, or the
word is TransientBusy and exactly one thread is inside exactly one
contended allocator operation, or the word is owned by one thread whose
stack is its measurement lock below some number of nested reentrant
operations, every other stack empty. -/
@[reducible] def Inv (σ : Sys) : Prop :=
  (σ.word = 0 ∧ ∀ u, σ.stack u = []) ∨
  (σ.word = 1 ∧ ∃ t, 2 ≤ t ∧ σ.stack t = [Entry.transient] ∧
    ∀ u, u ≠ t → σ.stack u = []) ∨
  (2 ≤ σ.word ∧
    (∃ k, σ.stack σ.word =
      List.replicate k Entry.reentrant ++ [Entry.lockHeld]) ∧
    ∀ u, u ≠ σ.word → σ.stack u = [])

lemma upd_same (f : Nat → List Entry) (t : Nat) (l : List Entry) :
    upd f t l t = l := by
  simp [upd]

lemma upd_other (f : Nat → List Entry) (t : Nat) (l : List Entry)
    (u : Nat) (h : u ≠ t) : upd f t l u = f u := by
  simp [upd, h]

lemma inv_start : Inv Sys.start :=
  Or.inl ⟨rfl, fun _ => rfl⟩

lemma inv_step (σ σ' : Sys) (t : Nat) (ht : 2 ≤ t) (hs : Step t σ σ')
    (hI : Inv σ) : Inv σ' := by
  have ht0 : t ≠ 0 := by omega
  have ht1 : t ≠ 1 := by omega
  cases hs with
  | before_free _ _ hw =>
    rcases hI with ⟨_, hE⟩ | ⟨hw1, _⟩ | ⟨hw2, _⟩
    · refine Or.inr (Or.inl ⟨rfl, t, ht, ?_, ?_⟩)
      · show upd σ.stack t (Entry.transient :: σ.stack t) t =
          [Entry.transient]
        rw [upd_same, hE t]
      · intro u hu
        show upd σ.stack t (Entry.transient :: σ.stack t) u = []
        rw [upd_other _ _ _ _ hu, hE u]
    · omega
    · omega
  | before_owner _ _ hw h0 =>
    rcases hI with ⟨hw0, _⟩ | ⟨hw1, _⟩ | ⟨hw2, ⟨k, hk⟩, hO⟩
    · omega
    · omega
    · rw [hw] at hk
      refine Or.inr (Or.inr ⟨hw2, ⟨k + 1, ?_⟩, ?_⟩)
      · show upd σ.stack t (Entry.reentrant :: σ.stack t) σ.word =
          List.replicate (k + 1) Entry.reentrant ++ [Entry.lockHeld]
        rw [hw, upd_same, hk, List.replicate_succ, List.cons_append]
      · intro u hu
        have hu2 : u ≠ σ.word := hu
        have hut : u ≠ t := by rw [← hw]; exact hu2
        show upd σ.stack t (Entry.reentrant :: σ.stack t) u = []
        rw [upd_other _ _ _ _ hut]
        exact hO u hu2
  | after_busy _ _ hw hh =>
    rcases hI with ⟨hw0, _⟩ | ⟨hw1, t0, h2t0, hs0, hO⟩ | ⟨hw2, _⟩
    · omega
    · have htt0 : t = t0 := by
        by_contra hne
        rw [hO t hne] at hh
        simp at hh
      refine Or.inl ⟨rfl, fun u => ?_⟩
      show upd σ.stack t (σ.stack t).tail u = []
      by_cases hu : u = t
      · rw [hu, upd_same, htt0, hs0, List.tail_cons]
      · rw [upd_other _ _ _ _ hu]
        exact hO u (htt0 ▸ hu)
    · omega
  | after_owner _ _ hw h1 hh =>
    rcases hI with ⟨hw0, _⟩ | ⟨hw1, _⟩ | ⟨hw2, ⟨k, hk⟩, hO⟩
    · omega
    · omega
    · rw [hw] at hk
      cases k with
      | zero =>
        rw [List.replicate_zero, List.nil_append] at hk
        rw [hk] at hh
        simp at hh
      | succ k1 =>
        rw [List.replicate_succ, List.cons_append] at hk
        refine Or.inr (Or.inr ⟨hw2, ⟨k1, ?_⟩, ?_⟩)
        · show upd σ.stack t (σ.stack t).tail σ.word =
            List.replicate k1 Entry.reentrant ++ [Entry.lockHeld]
          rw [hw, upd_same, hk, List.tail_cons]
        · intro u hu
          have hu2 : u ≠ σ.word := hu
          have hut : u ≠ t := by rw [← hw]; exact hu2
          show upd σ.stack t (σ.stack t).tail u = []
          rw [upd_other _ _ _ _ hut]
          exact hO u hu2
  | lock_acq _ _ hw =>
    rcases hI with ⟨_, hE⟩ | ⟨hw1, _⟩ | ⟨hw2, _⟩
    · refine Or.inr (Or.inr ⟨ht, ⟨0, ?_⟩, ?_⟩)
      · show upd σ.stack t (Entry.lockHeld :: σ.stack t) t =
          List.replicate 0 Entry.reentrant ++ [Entry.lockHeld]
        rw [upd_same, hE t, List.replicate_zero, List.nil_append]
      · intro u hu
        show upd σ.stack t (Entry.lockHeld :: σ.stack t) u = []
        rw [upd_other _ _ _ _ hu, hE u]
    · omega
    · omega
  | unlock_ok _ _ hw hh =>
    rcases hI with ⟨hw0, _⟩ | ⟨hw1, _⟩ | ⟨hw2, ⟨k, hk⟩, hO⟩
    · omega
    · omega
    · rw [hw] at hk
      cases k with
      | zero =>
        rw [List.replicate_zero, List.nil_append] at hk
        refine Or.inl ⟨rfl, fun u => ?_⟩
        show upd σ.stack t (σ.stack t).tail u = []
        by_cases hu : u = t
        · rw [hu, upd_same, hk, List.tail_cons]
        · rw [upd_other _ _ _ _ hu]
          exact hO u (by rw [hw]; exact hu)
      | succ k1 =>
        rw [hk] at hh
        simp [List.replicate_succ] at hh

/-- Every state reachable with live thread ids above the sentinels
satisfies the inductive invariant. -/
lemma inv_reachS (σ : Sys) (h : ReachS σ) : Inv σ := by
  induction h with
  | start => exact inv_start
  | step σ0 σ1 t ht _ hs ih => exact inv_step σ0 σ1 t ht hs ih

lemma inv_lone_stack (σ : Sys) (hI : Inv σ) (t u : Nat) (htu : t ≠ u) :
    σ.stack t = [] ∨ σ.stack u = [] := by
  rcases hI with ⟨_, hE⟩ | ⟨_, t0, _, _, hO⟩ | ⟨_, _, hO⟩
  · exact Or.inl (hE t)
  · by_cases h : t = t0
    · exact Or.inr (hO u (by rw [h] at htu; exact htu.symm))
    · exact Or.inl (hO t h)
  · by_cases h : t = σ.word
    · exact Or.inr (hO u (by rw [h] at htu; exact htu.symm))
    · exact Or.inl (hO t h)

/-- Claim C3: assuming no live thread id equals the sentinels 0 or 1, in
every reachable state at most one thread is inside the TransientBusy or
OwnedBy critical section performing a raw allocation (the owner's own nested
entries all belong to that one thread), and two different threads never
simultaneously hold exclusive ownership. -/
theorem mutual_exclusion (σ : Sys) (h : ReachS σ) (t u : Nat)
    (htu : t ≠ u) :
    ¬(inAlloc σ t = true ∧ inAlloc σ u = true) ∧
    ¬(holds_lock σ t = true ∧ holds_lock σ u = true) := by
  have hI := inv_reachS σ h
  have hlone := inv_lone_stack σ hI t u htu
  constructor
  · rintro ⟨h1, h2⟩
    rcases hlone with hl | hl
    · rw [inAlloc, hl] at h1
      simp at h1
    · rw [inAlloc, hl] at h2
      simp at h2
  · rintro ⟨h1, h2⟩
    rcases hlone with hl | hl
    · rw [holds_lock, hl] at h1
      simp at h1
    · rw [holds_lock, hl] at h2
      simp at h2

/-- Witness for mutual_exclusion at the initial state and threads 2 and 3. -/
theorem mutual_exclusion_witness :
    ReachS Sys.start ∧ (2 : Nat) ≠ 3 ∧
    (¬(inAlloc Sys.start 2 = true ∧ inAlloc Sys.start 3 = true) ∧
     ¬(holds_lock Sys.start 2 = true ∧ holds_lock Sys.start 3 = true)) :=
  ⟨ReachS.start, by decide,
   mutual_exclusion Sys.start ReachS.start 2 3 (by decide)⟩

/-- Claim C8: thread ids share the value space of the sentinels.  A caller
whose id is 1 that runs before_op while a different thread holds the
transient-busy marker is reported as the reentrant owner (before_op returns
true with the word unchanged), and the system can reach a state in which
thread 2 and thread 1 are both inside the critical section performing a raw
allocation — mutual exclusion is broken. -/
theorem sentinel_collision_breaks_exclusion :
    before_op_step 1 1 = some (true, 1) ∧
    (1 : Nat) ≠ 2 ∧
    ∃ σ : Sys, Reach σ ∧ inAlloc σ 2 = true ∧ inAlloc σ 1 = true := by
  refine ⟨rfl, by decide,
    ⟨1, upd (upd (fun _ => []) 2 [Entry.transient]) 1 [Entry.reentrant]⟩,
    ?_, rfl, rfl⟩
  have h1 : Step 2 Sys.start
      ⟨1, upd (fun _ => []) 2 [Entry.transient]⟩ :=
    Step.before_free Sys.start 2 rfl
  have h2 : Step 1 ⟨1, upd (fun _ => []) 2 [Entry.transient]⟩
      ⟨1, upd (upd (fun _ => []) 2 [Entry.transient]) 1
        [Entry.reentrant]⟩ :=
    Step.before_owner ⟨1, upd (fun _ => []) 2 [Entry.transient]⟩ 1 rfl
      (by decide)
  exact Reach.step _ _ 1
    (Reach.step _ _ 2 Reach.start h1) h2

end StatsAllocHelper
